import Mathlib

/-!
Shallow embedding of the poker game engine (`backend/poker/services.py`,
class `GameService`) together with the data model (`backend/poker/models.py`).

Modelling conventions:
* Django model rows become Lean structures; the player's hand is the list of
  its `Card` rows ordered by `position` (the service always reads it with
  `order_by('position')`).
* Python `int` becomes `Int`; phase / suit / rank / status strings stay
  `String`, matching the string literals of the source.
* `random.choice` / `random.shuffle` are modelled by explicit parameters:
  a `Nat` index `i` for `random.choice xs` (the chosen element is
  `xs.getD (i % xs.length)`), and a caller-supplied `deck` list standing for
  the shuffled remainder of the 52-card deck used to replace discarded cards.
* `raise ValueError(msg)` becomes `Except.error msg` with the exact message
  string of the source; a normal return becomes `Except.ok`.
-/

structure Card where
  suit : String
  rank : String
  selected : Bool
  position : Nat
  deriving DecidableEq, Repr

structure Player where
  chips : Int
  has_folded : Bool
  current_bet : Int
  deriving DecidableEq, Repr

structure Opponent where
  name : String
  chips : Int
  status : String
  card_count : Int
  current_bet : Int
  deriving DecidableEq, Repr

structure Game where
  phase : String
  pot : Int
  current_bet : Int
  winner : Option String
  winning_hand : Option String
  can_call : Bool
  can_raise : Bool
  can_fold : Bool
  player : Player
  cards : List Card
  opponents : List Opponent
  deriving DecidableEq, Repr

/-- `GameService.create_new_game`: the random opponent chip counts and the
shuffled deck are supplied as parameters (`random.randint` / `random.shuffle`). -/
def create_new_game (oppChips : List Int) (shuffledDeck : List (String × String)) : Game :=
  { phase := "betting", pot := 0, current_bet := 10,
    winner := none, winning_hand := none,
    can_call := true, can_raise := true, can_fold := true,
    player := { chips := 1000, has_folded := false, current_bet := 0 },
    cards := (List.range 5).map (fun i =>
      let sr := shuffledDeck.getD i ("", "")
      { suit := sr.1, rank := sr.2, selected := false, position := i }),
    opponents := (List.range 3).map (fun i =>
      { name := "Computer " ++ toString (i + 1), chips := oppChips.getD i 1000,
        status := "active", card_count := 5, current_bet := 0 }) }

/-- The fixed vocabulary of hand labels in `GameService._determine_winner`. -/
def winning_hands : List String :=
  ["Royal Flush", "Straight Flush", "Four of a Kind",
   "Full House", "Flush", "Straight", "Three of a Kind",
   "Two Pair", "Pair of Aces", "Pair of Kings", "High Card"]

/-- `GameService._determine_winner`: `winnerIdx` and `handIdx` model the two
`random.choice` calls. When the player folded and there is no active opponent
the source assigns no winner (the `if active_opponents:` guard). -/
def determine_winner (game : Game) (winnerIdx handIdx : Nat) : Game :=
  let active := game.opponents.filter (fun o => o.status = "active")
  let game1 :=
    if !game.player.has_folded then
      let possible_winners := "player" :: active.map (fun o => o.name)
      let w := possible_winners.getD (winnerIdx % possible_winners.length) ""
      { game with winner := some w }
    else
      if active ≠ [] then
        let noOpp : Opponent :=
          { name := "", chips := 0, status := "", card_count := 0, current_bet := 0 }
        let w := (active.getD (winnerIdx % active.length) noOpp).name
        { game with winner := some w }
      else game
  let label := winning_hands.getD (handIdx % winning_hands.length) ""
  { game1 with winning_hand := some label }

/-- `GameService.process_bet_action`.  `choiceIdx` models the
`random.choice(['Computer 1', 'Computer 2', 'Computer 3'])` in the fold branch.
An unrecognised action string falls through all branches and returns the game
unchanged, exactly like the source's if/elif chain. `amount = none` is Python
`None`; the `if not amount` truthiness check also catches `amount == 0`. -/
def process_bet_action (game : Game) (action : String) (amount : Option Int)
    (choiceIdx : Nat) : Except String Game :=
  if game.phase ≠ "betting" then
    .error "Cannot bet when not in betting phase"
  else if action = "fold" then
    let names := ["Computer 1", "Computer 2", "Computer 3"]
    .ok { game with
      player := { game.player with has_folded := true },
      phase := "finished",
      winner := some (names.getD (choiceIdx % names.length) ""),
      winning_hand := some "Pair of Kings" }
  else if action = "call" then
    let bet_amount := game.current_bet
    if game.player.chips < bet_amount then
      .error "Insufficient chips to call"
    else
      .ok { game with
        player := { game.player with
          chips := game.player.chips - bet_amount,
          current_bet := bet_amount },
        pot := game.pot + bet_amount,
        phase := "drawing" }
  else if action = "raise" then
    match amount with
    | none => .error "Amount required for raise"
    | some a =>
      if a = 0 then .error "Amount required for raise"
      else if a < 0 then .error "Raise amount must be positive"
      else if game.player.chips < a then .error "Insufficient chips to raise"
      else
        .ok { game with
          player := { game.player with
            chips := game.player.chips - a,
            current_bet := a },
          pot := game.pot + a,
          current_bet := max game.current_bet a }
  else
    .ok game

/-- The in-place replacement loop of `process_draw_action`:
`for i, index in enumerate(sorted(discard_indices)): cards[index] ← deck[i]`,
overwriting only suit and rank (position and selected are preserved). -/
def replaceCards : List Card → List Int → List (String × String) → Nat → List Card
  | cards, [], _, _ => cards
  | cards, index :: rest, deck, i =>
    let sr := deck.getD i ("", "")
    let idx := index.toNat
    let old := cards.getD idx { suit := "", rank := "", selected := false, position := 0 }
    replaceCards (cards.set idx { old with suit := sr.1, rank := sr.2 }) rest deck (i + 1)

/-- `GameService.process_draw_action`.  `deck` stands for the shuffled deck of
the 52 cards minus the hand's current cards (its construction and shuffle are
the source's randomness); `winnerIdx`/`handIdx` are passed to the resolver.
The validation loop raises on the first index outside `[0, len(cards))`;
duplicates are not checked here. -/
def process_draw_action (game : Game) (discard_indices : List Int)
    (deck : List (String × String)) (winnerIdx handIdx : Nat) : Except String Game :=
  if game.phase ≠ "drawing" then
    .error "Cannot draw when not in drawing phase"
  else
    let cards := game.cards
    match discard_indices.find?
        (fun i => decide (i < 0) || decide ((cards.length : Int) ≤ i)) with
    | some i => .error ("Invalid card index: " ++ toString i)
    | none =>
      let cards1 :=
        if discard_indices.isEmpty then cards
        else replaceCards cards (List.insertionSort (· ≤ ·) discard_indices) deck 0
      let game1 := { game with cards := cards1, phase := "finished" }
      .ok (determine_winner game1 winnerIdx handIdx)

/-- `GameService.get_game_state` on an existing session: returns it unchanged. -/
def get_game_state (game : Game) : Game := game

instance : DecidableEq (Except String Game) := fun a b =>
  match a, b with
  | .ok x, .ok y => decidable_of_iff (x = y) (by simp)
  | .error x, .error y => decidable_of_iff (x = y) (by simp)
  | .ok _, .error _ => isFalse (fun hc => Except.noConfusion hc)
  | .error _, .ok _ => isFalse (fun hc => Except.noConfusion hc)

/-- One engine operation with all of its (randomness) parameters. -/
inductive EngineOp
  | bet (action : String) (amount : Option Int) (choiceIdx : Nat)
  | draw (indices : List Int) (deck : List (String × String)) (winnerIdx handIdx : Nat)
  | getState

/-- Applying an operation to a session: a failed operation raises and leaves
the stored session unchanged (nothing was saved before the raise). -/
def applyOp (g : Game) : EngineOp → Game
  | .bet a amt c => ((process_bet_action g a amt c).toOption).getD g
  | .draw idx deck w h => ((process_draw_action g idx deck w h).toOption).getD g
  | .getState => get_game_state g

/-- Position of a phase string in the lifecycle order
betting → drawing → showdown → finished. -/
def phaseRank : String → Nat
  | "betting" => 0
  | "drawing" => 1
  | "showdown" => 2
  | "finished" => 3
  | _ => 0

/-! Concrete sample sessions used by witnesses and counterexamples. -/

def sampleDeck : List (String × String) :=
  [("hearts", "2"), ("hearts", "3"), ("hearts", "4"), ("hearts", "5"), ("hearts", "6")]

def sampleGame : Game := create_new_game [900, 1000, 1100] sampleDeck

def sampleDrawGame : Game := { sampleGame with phase := "drawing" }

def sampleFinishedGame : Game := { sampleGame with phase := "finished" }

def replacementDeck : List (String × String) :=
  [("clubs", "7"), ("clubs", "8"), ("clubs", "9"), ("clubs", "10"), ("clubs", "J")]

/-- The session after a successful Call on the fresh sample session. -/
def sampleCalledGame : Game :=
  { sampleGame with
    player := { chips := 990, has_folded := false, current_bet := 10 },
    pot := 10,
    phase := "drawing" }

/-! Helper lemmas. -/

lemma determine_winner_phase (g : Game) (w h : Nat) :
    (determine_winner g w h).phase = g.phase := by
  unfold determine_winner
  dsimp only
  split
  · rfl
  · split <;> rfl

lemma determine_winner_opponents (g : Game) (w h : Nat) :
    (determine_winner g w h).opponents = g.opponents := by
  unfold determine_winner
  dsimp only
  split
  · rfl
  · split <;> rfl

lemma determine_winner_player (g : Game) (w h : Nat) :
    (determine_winner g w h).player = g.player := by
  unfold determine_winner
  dsimp only
  split
  · rfl
  · split <;> rfl

lemma determine_winner_cards (g : Game) (w h : Nat) :
    (determine_winner g w h).cards = g.cards := by
  unfold determine_winner
  dsimp only
  split
  · rfl
  · split <;> rfl

/-- C3: for every session in phase Betting whose seat has chips ≥ the table's
current bet, a Call decreases the seat's chips by exactly `current_bet`, sets
the seat's `current_bet` to that amount, increases the pot by exactly
`current_bet`, and moves the phase to Drawing. -/
theorem call_with_sufficient_chips (g : Game) (amt : Option Int) (c : Nat)
    (h1 : g.phase = "betting") (h2 : g.current_bet ≤ g.player.chips) :
    ∃ g', process_bet_action g "call" amt c = .ok g' ∧
      g'.pot = g.pot + g.current_bet ∧
      g'.player.chips = g.player.chips - g.current_bet ∧
      g'.player.current_bet = g.current_bet ∧
      g'.phase = "drawing" := by
  have h3 : ¬ (g.player.chips < g.current_bet) := not_lt.mpr h2
  have he : process_bet_action g "call" amt c = .ok { g with
      player := { g.player with
        chips := g.player.chips - g.current_bet,
        current_bet := g.current_bet },
      pot := g.pot + g.current_bet,
      phase := "drawing" } := by
    simp [process_bet_action, h1, h3]
  exact ⟨_, he, rfl, rfl, rfl, rfl⟩

/-- Witness for C3 at a freshly created session (chips 1000, current bet 10). -/
theorem call_with_sufficient_chips_witness :
    sampleGame.phase = "betting" ∧ sampleGame.current_bet ≤ sampleGame.player.chips ∧
    ∃ g', process_bet_action sampleGame "call" none 0 = .ok g' ∧
      g'.pot = sampleGame.pot + sampleGame.current_bet ∧
      g'.player.chips = sampleGame.player.chips - sampleGame.current_bet ∧
      g'.player.current_bet = sampleGame.current_bet ∧
      g'.phase = "drawing" :=
  ⟨by decide, by decide,
    call_with_sufficient_chips sampleGame none 0 (by decide) (by decide)⟩

/-- C6: for every session in phase Betting whose seat has chips < the table's
current bet, a Call fails with the insufficient-funds error and the stored
session is unchanged (validation happens before any mutation). -/
theorem call_insufficient_chips_fails_unchanged (g : Game) (amt : Option Int) (c : Nat)
    (h1 : g.phase = "betting") (h2 : g.player.chips < g.current_bet) :
    process_bet_action g "call" amt c = .error "Insufficient chips to call" ∧
    applyOp g (.bet "call" amt c) = g := by
  have he : process_bet_action g "call" amt c = .error "Insufficient chips to call" := by
    simp [process_bet_action, h1, h2]
  exact ⟨he, by simp [applyOp, he, Except.toOption]⟩

/-- Witness for C6 at a session with 5 chips facing a current bet of 10. -/
theorem call_insufficient_chips_fails_unchanged_witness :
    (let g := { sampleGame with player := { sampleGame.player with chips := 5 } };
     g.phase = "betting" ∧ g.player.chips < g.current_bet ∧
     process_bet_action g "call" none 0 = .error "Insufficient chips to call" ∧
     applyOp g (.bet "call" none 0) = g) :=
  ⟨by decide, by decide,
    (call_insufficient_chips_fails_unchanged _ none 0 (by decide) (by decide)).1,
    (call_insufficient_chips_fails_unchanged _ none 0 (by decide) (by decide)).2⟩

/-- C7: for every session in phase Betting and every positive raise amount the
seat can afford, Raise succeeds: chips drop by the amount, the seat's bet is
set to it, the pot grows by it, the table bet becomes `max current_bet amount`,
and the phase stays Betting. -/
theorem raise_success_updates (g : Game) (a : Int) (c : Nat)
    (h1 : g.phase = "betting") (h2 : 0 < a) (h3 : a ≤ g.player.chips) :
    ∃ g', process_bet_action g "raise" (some a) c = .ok g' ∧
      g'.player.chips = g.player.chips - a ∧
      g'.player.current_bet = a ∧
      g'.pot = g.pot + a ∧
      g'.current_bet = max g.current_bet a ∧
      g'.phase = "betting" := by
  have hz : a ≠ 0 := ne_of_gt h2
  have hn : ¬ (a < 0) := not_lt.mpr (le_of_lt h2)
  have hc : ¬ (g.player.chips < a) := not_lt.mpr h3
  have he : process_bet_action g "raise" (some a) c = .ok { g with
      player := { g.player with
        chips := g.player.chips - a,
        current_bet := a },
      pot := g.pot + a,
      current_bet := max g.current_bet a } := by
    simp [process_bet_action, h1, hz, hn, hc]
  exact ⟨_, he, rfl, rfl, rfl, rfl, h1⟩

/-- Witness for C7: raising 50 on a fresh session (current bet 10) succeeds,
leaving current bet 50 and pot 50 with the phase still Betting. -/
theorem raise_success_updates_witness :
    sampleGame.phase = "betting" ∧ (0 : Int) < 50 ∧ (50 : Int) ≤ sampleGame.player.chips ∧
    ∃ g', process_bet_action sampleGame "raise" (some 50) 0 = .ok g' ∧
      g'.player.chips = sampleGame.player.chips - 50 ∧
      g'.player.current_bet = 50 ∧
      g'.pot = sampleGame.pot + 50 ∧
      g'.current_bet = max sampleGame.current_bet 50 ∧
      g'.phase = "betting" :=
  ⟨by decide, by decide, by decide,
    raise_success_updates sampleGame 50 0 (by decide) (by decide) (by decide)⟩

/-- C9 (implicit): a Raise strictly below the table's outstanding bet is
accepted — with 0 < amount < current_bet and sufficient chips, Raise succeeds,
the pot grows by the amount, and `current_bet` is unchanged. -/
theorem underraise_accepted_current_bet_unchanged (g : Game) (a : Int) (c : Nat)
    (h1 : g.phase = "betting") (h2 : 0 < a) (h3 : a < g.current_bet)
    (h4 : a ≤ g.player.chips) :
    ∃ g', process_bet_action g "raise" (some a) c = .ok g' ∧
      g'.pot = g.pot + a ∧
      g'.current_bet = g.current_bet := by
  obtain ⟨g', he, -, -, hpot, hmax, -⟩ := raise_success_updates g a c h1 h2 h4
  exact ⟨g', he, hpot, by rw [hmax]; exact max_eq_left (le_of_lt h3)⟩

/-- Witness for C9: raising 5 against a current bet of 10 succeeds and leaves
the table bet at 10. -/
theorem underraise_accepted_current_bet_unchanged_witness :
    sampleGame.phase = "betting" ∧ (0 : Int) < 5 ∧ (5 : Int) < sampleGame.current_bet ∧
    (5 : Int) ≤ sampleGame.player.chips ∧
    ∃ g', process_bet_action sampleGame "raise" (some 5) 0 = .ok g' ∧
      g'.pot = sampleGame.pot + 5 ∧
      g'.current_bet = sampleGame.current_bet :=
  ⟨by decide, by decide, by decide, by decide,
    underraise_accepted_current_bet_unchanged sampleGame 5 0
      (by decide) (by decide) (by decide) (by decide)⟩

/-- C8: for every session in phase Betting, Raise with a missing amount or an
amount ≤ 0 fails (missing-amount / invalid-amount error) and the stored
session is unchanged. -/
theorem raise_missing_or_nonpositive_amount_fails (g : Game) (amt : Option Int) (c : Nat)
    (h1 : g.phase = "betting")
    (h2 : amt = none ∨ ∃ a, amt = some a ∧ a ≤ 0) :
    (∃ e, process_bet_action g "raise" amt c = .error e ∧
      (e = "Amount required for raise" ∨ e = "Raise amount must be positive")) ∧
    applyOp g (.bet "raise" amt c) = g := by
  have he : ∃ e, process_bet_action g "raise" amt c = .error e ∧
      (e = "Amount required for raise" ∨ e = "Raise amount must be positive") := by
    rcases h2 with h2 | ⟨a, rfl, ha⟩
    · subst h2
      exact ⟨_, by simp [process_bet_action, h1], Or.inl rfl⟩
    · rcases eq_or_lt_of_le ha with rfl | hlt
      · exact ⟨_, by simp [process_bet_action, h1], Or.inl rfl⟩
      · refine ⟨_, ?_, Or.inr rfl⟩
        simp [process_bet_action, h1, ne_of_lt hlt, hlt]
  obtain ⟨e, he', hcase⟩ := he
  exact ⟨⟨e, he', hcase⟩, by simp [applyOp, he', Except.toOption]⟩

/-- Witness for C8: raising with amount −3 on a fresh session fails and leaves
the session unchanged. -/
theorem raise_missing_or_nonpositive_amount_fails_witness :
    sampleGame.phase = "betting" ∧
    ((some (-3 : Int)) = none ∨ ∃ a, (some (-3 : Int)) = some a ∧ a ≤ 0) ∧
    (∃ e, process_bet_action sampleGame "raise" (some (-3)) 0 = .error e ∧
      (e = "Amount required for raise" ∨ e = "Raise amount must be positive")) ∧
    applyOp sampleGame (.bet "raise" (some (-3)) 0) = sampleGame :=
  ⟨by decide, Or.inr ⟨-3, rfl, by decide⟩,
    (raise_missing_or_nonpositive_amount_fails sampleGame (some (-3)) 0
      (by decide) (Or.inr ⟨-3, rfl, by decide⟩)).1,
    (raise_missing_or_nonpositive_amount_fails sampleGame (some (-3)) 0
      (by decide) (Or.inr ⟨-3, rfl, by decide⟩)).2⟩

/-- C5: once a session is Finished, every bet and every draw fails with the
invalid-phase error and the stored session is unchanged — it is immutable
except for reads. -/
theorem finished_session_immutable (g : Game) (h : g.phase = "finished") :
    (∀ a amt c, process_bet_action g a amt c = .error "Cannot bet when not in betting phase") ∧
    (∀ idx deck w hd, process_draw_action g idx deck w hd =
      .error "Cannot draw when not in drawing phase") ∧
    (∀ op, applyOp g op = g) := by
  have hb : ∀ a amt c, process_bet_action g a amt c =
      .error "Cannot bet when not in betting phase" := by
    intro a amt c
    simp [process_bet_action, h]
  have hdw : ∀ idx deck w hd, process_draw_action g idx deck w hd =
      .error "Cannot draw when not in drawing phase" := by
    intro idx deck w hd
    simp [process_draw_action, h]
  refine ⟨hb, hdw, ?_⟩
  intro op
  cases op with
  | bet a amt c => simp [applyOp, hb, Except.toOption]
  | draw idx deck w hd => simp [applyOp, hdw, Except.toOption]
  | getState => rfl

/-- Witness for C5 at a concrete finished session. -/
theorem finished_session_immutable_witness :
    sampleFinishedGame.phase = "finished" ∧
    process_bet_action sampleFinishedGame "call" none 0 =
      .error "Cannot bet when not in betting phase" ∧
    process_draw_action sampleFinishedGame [0] replacementDeck 0 0 =
      .error "Cannot draw when not in drawing phase" ∧
    applyOp sampleFinishedGame (.bet "raise" (some 50) 0) = sampleFinishedGame :=
  ⟨by decide,
    (finished_session_immutable sampleFinishedGame (by decide)).1 "call" none 0,
    (finished_session_immutable sampleFinishedGame (by decide)).2.1 [0] replacementDeck 0 0,
    (finished_session_immutable sampleFinishedGame (by decide)).2.2 (.bet "raise" (some 50) 0)⟩

/-- C4: in phase Betting, Fold marks the seat folded, finishes the session,
and names as winner one of the opponents — never the seat identifier
"player". -/
theorem fold_finishes_with_opponent_winner (g : Game) (amt : Option Int) (c : Nat)
    (h1 : g.phase = "betting")
    (h2 : g.opponents.map (fun o => o.name) = ["Computer 1", "Computer 2", "Computer 3"]) :
    ∃ g' w, process_bet_action g "fold" amt c = .ok g' ∧
      g'.phase = "finished" ∧
      g'.player.has_folded = true ∧
      g'.winner = some w ∧
      w ∈ g.opponents.map (fun o => o.name) ∧
      w ≠ "player" := by
  have h3 : c % 3 = 0 ∨ c % 3 = 1 ∨ c % 3 = 2 := by omega
  rcases h3 with h3 | h3 | h3
  · have he : process_bet_action g "fold" amt c = .ok { g with
        player := { g.player with has_folded := true },
        phase := "finished",
        winner := some "Computer 1",
        winning_hand := some "Pair of Kings" } := by
      simp [process_bet_action, h1, h3]
    refine ⟨_, "Computer 1", he, rfl, rfl, rfl, ?_, by decide⟩
    rw [h2]; decide
  · have he : process_bet_action g "fold" amt c = .ok { g with
        player := { g.player with has_folded := true },
        phase := "finished",
        winner := some "Computer 2",
        winning_hand := some "Pair of Kings" } := by
      simp [process_bet_action, h1, h3]
    refine ⟨_, "Computer 2", he, rfl, rfl, rfl, ?_, by decide⟩
    rw [h2]; decide
  · have he : process_bet_action g "fold" amt c = .ok { g with
        player := { g.player with has_folded := true },
        phase := "finished",
        winner := some "Computer 3",
        winning_hand := some "Pair of Kings" } := by
      simp [process_bet_action, h1, h3]
    refine ⟨_, "Computer 3", he, rfl, rfl, rfl, ?_, by decide⟩
    rw [h2]; decide

/-- Witness for C4: folding on a fresh session. -/
theorem fold_finishes_with_opponent_winner_witness :
    sampleGame.phase = "betting" ∧
    sampleGame.opponents.map (fun o => o.name) =
      ["Computer 1", "Computer 2", "Computer 3"] ∧
    ∃ g' w, process_bet_action sampleGame "fold" none 1 = .ok g' ∧
      g'.phase = "finished" ∧
      g'.player.has_folded = true ∧
      g'.winner = some w ∧
      w ∈ sampleGame.opponents.map (fun o => o.name) ∧
      w ≠ "player" :=
  ⟨by decide, by decide,
    fold_finishes_with_opponent_winner sampleGame none 1 (by decide) (by decide)⟩

/-- Any successful draw leaves the session in phase finished. -/
lemma process_draw_ok_phase (g : Game) (idx : List Int) (deck : List (String × String))
    (w hd : Nat) (g' : Game) (h : process_draw_action g idx deck w hd = .ok g') :
    g'.phase = "finished" := by
  simp only [process_draw_action] at h
  split at h
  · exact absurd h (by simp)
  · split at h
    · exact absurd h (by simp)
    · rw [Except.ok.injEq] at h
      subst h
      rw [determine_winner_phase]

/-- A single engine operation never lowers the rank of the phase. -/
lemma applyOp_phase_mono (g : Game) (op : EngineOp) :
    phaseRank g.phase ≤ phaseRank (applyOp g op).phase := by
  cases op with
  | getState => exact le_rfl
  | bet a amt c =>
    by_cases hb : g.phase = "betting"
    · have h0 : phaseRank g.phase = 0 := by rw [hb]; decide
      rw [h0]
      exact Nat.zero_le _
    · have he : process_bet_action g a amt c =
          .error "Cannot bet when not in betting phase" := by
        simp [process_bet_action, hb]
      simp [applyOp, he, Except.toOption]
  | draw idx deck w hd =>
    by_cases hdr : g.phase = "drawing"
    · cases hres : process_draw_action g idx deck w hd with
      | error e => simp [applyOp, hres, Except.toOption]
      | ok g' =>
        have hph := process_draw_ok_phase g idx deck w hd g' hres
        simp [applyOp, hres, Except.toOption, hph, hdr, phaseRank]
    · have he : process_draw_action g idx deck w hd =
          .error "Cannot draw when not in drawing phase" := by
        simp [process_draw_action, hdr]
      simp [applyOp, he, Except.toOption]

lemma foldl_applyOp_phase_mono (ops : List EngineOp) (g : Game) :
    phaseRank g.phase ≤ phaseRank (ops.foldl applyOp g).phase := by
  induction ops generalizing g with
  | nil => exact le_rfl
  | cons op rest ih => exact le_trans (applyOp_phase_mono g op) (ih (applyOp g op))

/-- C2: phase is monotonic — along any sequence of engine operations (bets,
draws, state reads), extending the sequence never moves the phase backwards
in the order betting → drawing → (showdown) → finished. -/
theorem phase_monotone_over_op_sequences (g : Game) (ops1 ops2 : List EngineOp) :
    phaseRank ((ops1.foldl applyOp g)).phase ≤
      phaseRank (((ops1 ++ ops2).foldl applyOp g)).phase := by
  rw [List.foldl_append]
  exact foldl_applyOp_phase_mono ops2 (ops1.foldl applyOp g)

/-- Any successful bet leaves the opponents exactly as they were. -/
lemma process_bet_ok_opponents (g : Game) (a : String) (amt : Option Int) (c : Nat)
    (g' : Game) (h : process_bet_action g a amt c = .ok g') :
    g'.opponents = g.opponents := by
  simp only [process_bet_action] at h
  repeat' split at h
  all_goals first
    | exact Except.noConfusion h
    | (have h2 := Except.ok.inj h; subst h2; rfl)

/-- Any successful draw leaves the opponents exactly as they were. -/
lemma process_draw_ok_opponents (g : Game) (idx : List Int)
    (deck : List (String × String)) (w hd : Nat) (g' : Game)
    (h : process_draw_action g idx deck w hd = .ok g') :
    g'.opponents = g.opponents := by
  simp only [process_draw_action] at h
  split at h
  · exact absurd h (by simp)
  · split at h
    · exact absurd h (by simp)
    · rw [Except.ok.injEq] at h
      subst h
      rw [determine_winner_opponents]

/-- C10 (implicit frame property): no engine operation ever modifies any
opponent — whether the operation succeeds or fails, the opponents list (hence
every opponent's name, chips, status, card count and bet) is unchanged. -/
theorem opponents_never_modified (g : Game) :
    (∀ op, (applyOp g op).opponents = g.opponents) ∧
    (∀ a amt c g', process_bet_action g a amt c = .ok g' →
      g'.opponents = g.opponents) ∧
    (∀ idx deck w hd g', process_draw_action g idx deck w hd = .ok g' →
      g'.opponents = g.opponents) := by
  refine ⟨?_, fun a amt c g' h => process_bet_ok_opponents g a amt c g' h,
    fun idx deck w hd g' h => process_draw_ok_opponents g idx deck w hd g' h⟩
  intro op
  cases op with
  | bet a amt c =>
    cases hres : process_bet_action g a amt c with
    | error e => simp [applyOp, hres, Except.toOption]
    | ok g' =>
      have := process_bet_ok_opponents g a amt c g' hres
      simp [applyOp, hres, Except.toOption, this]
  | draw idx deck w hd =>
    cases hres : process_draw_action g idx deck w hd with
    | error e => simp [applyOp, hres, Except.toOption]
    | ok g' =>
      have := process_draw_ok_opponents g idx deck w hd g' hres
      simp [applyOp, hres, Except.toOption, this]
  | getState => rfl

/-- Witness for C10: a fold and a successful call both leave the opponents
of the fresh sample session unchanged. -/
theorem opponents_never_modified_witness :
    (applyOp sampleGame (.bet "fold" none 0)).opponents = sampleGame.opponents ∧
    process_bet_action sampleGame "call" none 0 = .ok sampleCalledGame ∧
    sampleCalledGame.opponents = sampleGame.opponents :=
  ⟨(opponents_never_modified sampleGame).1 (.bet "fold" none 0),
    by decide,
    (opponents_never_modified sampleGame).2.1 "call" none 0 sampleCalledGame (by decide)⟩

/-- C1 counterexample: the engine's draw operation does NOT reject duplicate
discard positions.  On a Drawing session, discard positions [0, 0] succeed
(no error is raised) and the hand is mutated — the claim that a duplicated
index fails with an error and leaves the hand unchanged is false of the code
(duplicates are only screened out by the HTTP-layer request validation). -/
theorem duplicate_indices_accepted_by_draw :
    (process_draw_action sampleDrawGame [0, 0] replacementDeck 0 0).toOption ≠ none ∧
    ((process_draw_action sampleDrawGame [0, 0] replacementDeck 0 0).toOption.getD
        sampleDrawGame).cards ≠ sampleDrawGame.cards := by
  decide

/-- C1 (amended): in phase Drawing, a draw whose discard positions contain an
out-of-range index (negative or ≥ hand size) fails with the invalid-index
error before any mutation, leaving the stored session (seat and hand
included) unchanged.  Duplicate in-range positions, however, are not
validated by the engine. -/
theorem draw_invalid_index_rejected_no_mutation (g : Game) (idx : List Int)
    (deck : List (String × String)) (w hd : Nat)
    (h1 : g.phase = "drawing")
    (h2 : ∃ i ∈ idx, i < 0 ∨ (g.cards.length : Int) ≤ i) :
    (∃ j : Int, process_draw_action g idx deck w hd =
      .error ("Invalid card index: " ++ toString j)) ∧
    applyOp g (.draw idx deck w hd) = g := by
  have hfind : idx.find?
      (fun i => decide (i < 0) || decide ((g.cards.length : Int) ≤ i)) ≠ none := by
    intro hn
    rw [List.find?_eq_none] at hn
    obtain ⟨i, hi, hcase⟩ := h2
    have hni := hn i hi
    rcases hcase with hc | hc <;> simp [hc] at hni
  cases hf : idx.find?
      (fun i => decide (i < 0) || decide ((g.cards.length : Int) ≤ i)) with
  | none => exact absurd hf hfind
  | some j =>
    have he : process_draw_action g idx deck w hd =
        .error ("Invalid card index: " ++ toString j) := by
      simp only [process_draw_action]
      rw [if_neg (by simp [h1])]
      simp only [hf]
    exact ⟨⟨j, he⟩, by simp [applyOp, he, Except.toOption]⟩

/-- Witness for C1 (amended): index 5 on a 5-card hand is rejected with no
mutation. -/
theorem draw_invalid_index_rejected_no_mutation_witness :
    sampleDrawGame.phase = "drawing" ∧
    (∃ i ∈ ([5] : List Int), i < 0 ∨ (sampleDrawGame.cards.length : Int) ≤ i) ∧
    (∃ j : Int, process_draw_action sampleDrawGame [5] replacementDeck 0 0 =
      .error ("Invalid card index: " ++ toString j)) ∧
    applyOp sampleDrawGame (.draw [5] replacementDeck 0 0) = sampleDrawGame :=
  ⟨by decide, by decide,
    (draw_invalid_index_rejected_no_mutation sampleDrawGame [5] replacementDeck 0 0
      (by decide) (by decide)).1,
    (draw_invalid_index_rejected_no_mutation sampleDrawGame [5] replacementDeck 0 0
      (by decide) (by decide)).2⟩
